import Mathlib

/-
Verification development for the goes_arch repository: a shallow embedding of
`src/archive.rs`, `src/satellite.rs` and `src/product.rs` (the synchronization
pipeline over hour buckets), with theorems settling the specification claims.

Modelling conventions:
* `NaiveDateTime` values are whole seconds since 1970-01-01T00:00:00 (`Int`),
  matching the second-granular arithmetic the code performs
  (`end - Duration::hours(i)`, order comparisons, calendar field access).
* `PathBuf` values are lists of path components.
* The local filesystem is a finite map from paths to nodes plus explicit
  fault-injection sets naming the paths at which each primitive io operation
  (`read_dir`, `create_dir_all`, `File::create`, `write_all`) fails; this makes
  the `Err` branches of the code reachable in the model.
* The channel pipeline of `retrieve_paths` (producer loop, download pool, save
  stage, accumulator) is modelled by a deterministic sequential schedule that
  fully processes one hour bucket before the next: each stage body is embedded
  as a function, and the orchestration composes them per bucket.  Claims are
  about result membership and filesystem effects, which this schedule captures.
-/

namespace GoesArch

/-- Decidable equality on `Except`, so that concrete runs can be checked by
`decide`. -/
instance {e a : Type} [DecidableEq e] [DecidableEq a] : DecidableEq (Except e a) :=
  fun x y =>
    match x, y with
    | Except.error u, Except.error v =>
      if h : u = v then Decidable.isTrue (by rw [h])
      else Decidable.isFalse (by intro hc; injection hc; contradiction)
    | Except.error _, Except.ok _ => Decidable.isFalse (fun hc => Except.noConfusion hc)
    | Except.ok _, Except.error _ => Decidable.isFalse (fun hc => Except.noConfusion hc)
    | Except.ok u, Except.ok v =>
      if h : u = v then Decidable.isTrue (by rw [h])
      else Decidable.isFalse (by intro hc; injection hc; contradiction)

/-- The logical content of a `PathBuf`: its list of components. -/
abbrev Path := List String

/-- Byte payloads (`Vec<u8>`). -/
abbrev Bytes := List Nat

/-- The product enum from `product.rs`. -/
inductive Product where
  | FDCC
  | FDCM
  | FDCF
deriving DecidableEq

/-- `Product::max_num_per_hour` from `product.rs` (an `i32` in the code). -/
def Product.max_num_per_hour : Product → Int
  | .FDCM => 60
  | .FDCC => 12
  | .FDCF => 6

/-- The strum `IntoStaticStr` serialization of `Product`. -/
def Product.token : Product → String
  | .FDCC => "ABI-L2-FDCC"
  | .FDCM => "ABI-L2-FDCM"
  | .FDCF => "ABI-L2-FDCF"

/-- The satellite enum from `satellite.rs`. -/
inductive Satellite where
  | GOES16
  | GOES17
  | GOES18
deriving DecidableEq

/-- The strum `IntoStaticStr` serialization of `Satellite`. -/
def Satellite.token : Satellite → String
  | .GOES16 => "G16"
  | .GOES17 => "G17"
  | .GOES18 => "G18"

/-- Days since 1970-01-01 of the Gregorian calendar date (y, m, d); the
standard civil-calendar arithmetic backing `NaiveDate::from_ymd_opt`. -/
def daysFromCivil (y m d : Int) : Int :=
  let yy := if m ≤ 2 then y - 1 else y
  let era := yy / 400
  let yoe := yy - era * 400
  let doy := (153 * (m + (if 2 < m then -3 else 9)) + 2) / 5 + d - 1
  let doe := yoe * 365 + yoe / 4 - yoe / 100 + doy
  era * 146097 + doe - 719468

/-- Gregorian calendar date of a count of days since 1970-01-01; the inverse of
`daysFromCivil`, backing the `Datelike` accessors of chrono. -/
def civilFromDays (z0 : Int) : Int × Int × Int :=
  let z := z0 + 719468
  let era := z / 146097
  let doe := z - era * 146097
  let yoe := (doe - doe / 1460 + doe / 36524 - doe / 146096) / 365
  let y := yoe + era * 400
  let doy := doe - (365 * yoe + yoe / 4 - yoe / 100)
  let mp := (5 * doy + 2) / 153
  let d := doy - (153 * mp + 2) / 5 + 1
  let m := mp + (if mp < 10 then 3 else -9)
  (if m ≤ 2 then y + 1 else y, m, d)

/-- `Datelike::year` of a timestamp. -/
def yearOf (t : Int) : Int := (civilFromDays (t / 86400)).1

/-- `Datelike::ordinal` of a timestamp: the 1-based day of the year. -/
def ordinalOf (t : Int) : Int :=
  let z := t / 86400
  z - daysFromCivil (civilFromDays z).1 1 1 + 1

/-- `Timelike::hour` of a timestamp. -/
def hourOf (t : Int) : Int := (t % 86400) / 3600

/-- The hour-bucket index of a timestamp: its truncation to the hour, counted
in hours since the epoch.  Two timestamps belong to the same hour bucket (the
same `year/ordinal/hour` triple used by `build_path`) exactly when their
`hourFloor` agree. -/
def hourFloor (t : Int) : Int := t / 3600

/-- The timestamp of a calendar date and time of day, the embedding of
`NaiveDate::from_ymd_opt(..).and_hms_opt(..)`. -/
def ymdhms (y m d hh mm ss : Int) : Int :=
  daysFromCivil y m d * 86400 + hh * 3600 + mm * 60 + ss

/-- `Satellite::earliest_operational_date` from `satellite.rs`.  The definition
in `satellite.rs` takes the product (the FDCM product starts later on GOES16
and GOES17); the call site in `archive.rs` line 248 omits the product argument,
a version skew in the snapshot, so the product is threaded through here
following the definition that exists. -/
def Satellite.earliest_operational_date (sat : Satellite) (prod : Product) : Int :=
  match sat, prod with
  | .GOES16, .FDCM => ymdhms 2021 5 17 12 0 0
  | .GOES17, .FDCM => ymdhms 2021 5 17 12 0 0
  | .GOES16, _ => ymdhms 2017 12 18 12 0 0
  | .GOES17, _ => ymdhms 2019 2 12 12 0 0
  | .GOES18, _ => ymdhms 2023 1 17 12 0 0

/-- `Archive::validate_dates` from `archive.rs` lines 236-261: reject a range
whose end precedes its start, clamp the start up to the operational epoch, and
reject the range when the end precedes the clamped start. -/
def validate_dates (sat : Satellite) (prod : Product) (start e : Int) :
    Except String (Int × Int) :=
  if e < start then Except.error "Invalid satellite dates."
  else
    let earliest := sat.earliest_operational_date prod
    let valid_start := if start < earliest then earliest else start
    if e < valid_start then Except.error "Invalid satellite dates."
    else Except.ok (valid_start, e)

/-- One step of the producer loop of `retrieve_paths` (`archive.rs` lines
54-57): emit `e, e - 1h, e - 2h, ...` for as long as the value is still at or
after `start`, with a structural fuel argument bounding the iteration count. -/
def visitTimesGo (start : Int) : Nat → Int → List Int
  | 0, _ => []
  | fuel + 1, e => if e < start then [] else e :: visitTimesGo start fuel (e - 3600)

/-- The sequence of times visited by the producer loop, computed with enough
fuel for the loop to reach its stop condition first; `visitTimes_nil` and
`visitTimes_cons` below recover the two loop equations, and `visitTimes_eq`
gives the closed form. -/
def visitTimes (start e : Int) : List Int :=
  visitTimesGo start (e + 3600 - start).toNat e

/-- Zero padding as performed by the `{:04}/{:03}/{:02}` format specifiers in
`build_path`. -/
def pad (w : Nat) (n : Int) : String :=
  let s := toString n.natAbs
  let s := String.mk (List.replicate (w - s.length) (Char.ofNat 48)) ++ s
  if n < 0 then "-" ++ s else s

/-- `Archive::build_path` from `archive.rs` lines 309-327: the root, the
satellite token, the product token, then the zero-padded year, ordinal day and
hour of the timestamp (pushed as one `YYYY/DDD/HH` string, which `PathBuf`
treats as three components). -/
def build_path (root : Path) (sat : Satellite) (prod : Product) (t : Int) : Path :=
  root ++ [sat.token, prod.token, pad 4 (yearOf t), pad 3 (ordinalOf t), pad 2 (hourOf t)]

/-- The characters after the last dot of a character list, when it has one. -/
def afterLastDot : List Char → Option (List Char)
  | [] => none
  | c :: cs =>
    match afterLastDot cs with
    | some r => some r
    | none => if c = Char.ofNat 46 then some cs else none

/-- The extension of a file name, with the semantics of Rust `Path::extension`
restricted to one final component: the text after the last dot, or nothing when
there is no dot or the only dot is the leading character of the name (which
belongs to the stem of a hidden file). -/
def extOfName (name : String) : Option String :=
  match name.data with
  | [] => none
  | _ :: cs => (afterLastDot cs).map (fun r => String.mk r)

/-- `PathBuf::extension`: the extension of the final component of the path. -/
def pathExt (p : Path) : Option String :=
  match p.getLast? with
  | none => none
  | some name => extOfName name

/-- Kind and content of a filesystem node. -/
inductive Node where
  | dirN
  | fileN (data : Bytes)
deriving DecidableEq

/-- Whether a node is a directory. -/
def Node.isDirN : Node → Bool
  | .dirN => true
  | .fileN _ => false

/-- The local filesystem: existing paths with their nodes, together with
fault-injection sets naming the paths at which each io primitive fails (the
model of the `Err` results io operations may return in the code). -/
structure Fs where
  entries : List (Path × Node)
  readDirFail : List Path
  createDirFail : List Path
  createFail : List Path
  writeFail : List Path
deriving DecidableEq

/-- The node stored at a path, when the path exists. -/
def Fs.find (fs : Fs) (p : Path) : Option Node :=
  (fs.entries.find? (fun en => decide (en.1 = p))).map (fun en => en.2)

/-- `Path::exists`. -/
def Fs.pathExists (fs : Fs) (p : Path) : Bool :=
  (fs.find p).isSome

/-- `Path::is_dir`: the path exists and is a directory. -/
def Fs.isDir (fs : Fs) (p : Path) : Bool :=
  fs.find p == some Node.dirN

/-- `read_dir`: the entries directly below `p`, or a failure when `p` carries a
read fault.  The code additionally drops per-entry errors
(`filter_map(|e| e.ok())`); the model reads every entry successfully. -/
def Fs.readDir (fs : Fs) (p : Path) : Except Unit (List (Path × Node)) :=
  if p ∈ fs.readDirFail then Except.error ()
  else Except.ok (fs.entries.filter (fun en => decide (en.1.dropLast = p) && decide (en.1 ≠ [])))

/-- Insert or replace the node at `p`, leaving every other path intact. -/
def Fs.setEntry (fs : Fs) (p : Path) (n : Node) : Fs :=
  { fs with entries := (p, n) :: fs.entries.filter (fun en => decide (en.1 ≠ p)) }

/-- The nonempty prefixes of a path, shortest first. -/
def nonemptyPrefixes (p : Path) : List Path :=
  (List.range p.length).map (fun i => p.take (i + 1))

/-- `create_dir_all`: create the directory and its missing ancestors, or fail
when the path carries a create-directory fault. -/
def Fs.create_dir_all (fs : Fs) (p : Path) : Except Unit Fs :=
  if p ∈ fs.createDirFail then Except.error ()
  else Except.ok ((nonemptyPrefixes p).foldl
    (fun acc q => if acc.pathExists q then acc else acc.setEntry q Node.dirN) fs)

/-- `File::create`: create or truncate the file, or fail when the path carries
a create fault. -/
def Fs.fileCreate (fs : Fs) (p : Path) : Except Unit Fs :=
  if p ∈ fs.createFail then Except.error ()
  else Except.ok (fs.setEntry p (Node.fileN []))

/-- `Write::write_all`: replace the file content, or fail when the path carries
a write fault (the file then keeps the content `File::create` left). -/
def Fs.write_all (fs : Fs) (p : Path) (data : Bytes) : Except Unit Fs :=
  if p ∈ fs.writeFail then Except.error ()
  else Except.ok (fs.setEntry p (Node.fileN data))

/-- `HOUR_COMPLETE_FNAME` from `archive.rs`. -/
def HOUR_COMPLETE_FNAME : String := "hour_complete.txt"

/-- The marker payload `format!("{}\n", now).as_bytes().to_vec()`, where `now`
is the wall-clock timestamp observed at emission. -/
def completeTimeBytes (now : Int) : Bytes :=
  ((toString now).data.map Char.toNat) ++ [10]

/-- `Archive::mark_dir_as_complete` from `archive.rs` lines 297-307: create the
marker file inside the bucket directory and write the current timestamp. -/
def mark_dir_as_complete (fs : Fs) (pth : Path) (now : Int) : Except Unit Fs := do
  let completion_marker := pth ++ [HOUR_COMPLETE_FNAME]
  let fs1 ← fs.fileCreate completion_marker
  fs1.write_all completion_marker (completeTimeBytes now)

/-- `Archive::path_is_complete` from `archive.rs` lines 263-295: an absent
bucket directory is created and reported incomplete; an existing marker means
complete; otherwise the directory entries whose extension is `nc` are counted
(note: with no `is_dir` filter, unlike the accumulator) and, when the count
reaches `max_num_per_hour`, the marker is written and the bucket reported
complete.  Failures of the io primitives propagate, as the `?` operators do. -/
def path_is_complete (fs : Fs) (pth : Path) (prod : Product) (now : Int) :
    Except Unit (Bool × Fs) :=
  if !fs.pathExists pth then do
    let fs1 ← fs.create_dir_all pth
    Except.ok (false, fs1)
  else
    let completion_marker := pth ++ [HOUR_COMPLETE_FNAME]
    if fs.pathExists completion_marker then Except.ok (true, fs)
    else do
      let entries ← fs.readDir pth
      let num_files :=
        ((entries.filterMap (fun en => (pathExt en.1).map (fun ext => decide (ext = "nc")))).filter
          (fun b => b)).length
      if prod.max_num_per_hour ≤ (num_files : Int) then do
        let fs1 ← mark_dir_as_complete fs pth now
        Except.ok (true, fs1)
      else Except.ok (false, fs)

/-- The remote collaborator (`RemoteArchive` from `remote.rs`), keyed by the
hour timestamp; the satellite and product are fixed for a run and omitted from
the keys.  `Except.error` results model the `Err` branches. -/
structure Remote where
  retrieve_remote_filenames : Int → Except Unit (List String)
  retrieve_remote_file : Int → String → Except Unit Bytes

/-- Output of one download worker iteration for one bucket job. -/
structure DlOut where
  skips : List Path
  saveReqs : List (Path × Bytes)
  fetchNames : List String
deriving DecidableEq

/-- One download worker iteration (`start_download_thread` body, `archive.rs`
lines 134-177): list the remote filenames of the hour, abandoning the bucket on
failure; route each already-present file straight to the accumulator and fetch
the rest, skipping a file whose fetch fails; finally emit one `SaveRequest` for
the completion marker.  The marker request is emitted whenever the listing
succeeded — there is no staleness test comparing the bucket hour to `now`.
`fetchNames` logs the filenames for which `retrieve_remote_file` was called. -/
def downloadBucket (remote : Remote) (fs : Fs) (now : Int) (dir : Path) (t : Int) : DlOut :=
  match remote.retrieve_remote_filenames t with
  | Except.error _ => { skips := [], saveReqs := [], fetchNames := [] }
  | Except.ok remote_filenames =>
    let step := fun (acc : DlOut) (remote_fname : String) =>
      let local_path := dir ++ [remote_fname]
      if fs.pathExists local_path then { acc with skips := acc.skips ++ [local_path] }
      else
        match remote.retrieve_remote_file t remote_fname with
        | Except.error _ => { acc with fetchNames := acc.fetchNames ++ [remote_fname] }
        | Except.ok data =>
          { acc with saveReqs := acc.saveReqs ++ [(local_path, data)],
                     fetchNames := acc.fetchNames ++ [remote_fname] }
    let acc := remote_filenames.foldl step { skips := [], saveReqs := [], fetchNames := [] }
    { acc with saveReqs := acc.saveReqs ++ [(dir ++ [HOUR_COMPLETE_FNAME], completeTimeBytes now)] }

/-- One accumulator iteration (`start_accumulator_thread` body, `archive.rs`
lines 192-228): a directory input is expanded into its non-directory entries,
dropping each entry carrying an extension other than `nc` (an entry with no
extension is kept); a directory read failure contributes nothing.  Any
non-directory input path is appended unfiltered. -/
def accumulate (fs : Fs) (acc : List Path) (pth : Path) : List Path :=
  if fs.isDir pth then
    match fs.readDir pth with
    | Except.error _ => acc
    | Except.ok entries =>
      acc ++ entries.filterMap (fun en =>
        if en.2.isDirN then none
        else
          match pathExt en.1 with
          | some ext => if ext ≠ "nc" then none else some en.1
          | none => some en.1)
  else acc ++ [pth]

/-- One save stage iteration (`start_save_thread` body, `archive.rs` lines
91-109): create the file, skipping the request when the create fails; write the
bytes, only logging when the write fails; then forward the path to the
accumulator — the forward happens even after a failed write, as long as the
create succeeded.  The accumulator processes the forwarded path as in
`accumulate`. -/
def saveOne (fs : Fs) (result : List Path) (req : Path × Bytes) : Fs × List Path :=
  match fs.fileCreate req.1 with
  | Except.error _ => (fs, result)
  | Except.ok fs1 =>
    let fs2 := match fs1.write_all req.1 req.2 with
      | Except.error _ => fs1
      | Except.ok fs2 => fs2
    (fs2, accumulate fs2 result req.1)

/-- The save stage draining a list of requests in order. -/
def saveFold (fs : Fs) (result : List Path) (reqs : List (Path × Bytes)) : Fs × List Path :=
  reqs.foldl (fun a req => saveOne a.1 a.2 req) (fs, result)

/-- State threaded through the sequential model of one `retrieve_paths` run:
the filesystem, the accumulated result list, and the log of remote calls
(listing calls by hour; fetch calls by hour and filename). -/
structure RunState where
  fs : Fs
  result : List Path
  listingCalls : List Int
  fetchCalls : List (Int × String)
deriving DecidableEq

/-- Sequential semantics of one iteration of the producer loop (`archive.rs`
lines 58-64) together with the pipeline work it induces: probe the bucket (a
probe failure propagates, as the `?` at line 60 does); a complete bucket goes
straight to the accumulator; an incomplete bucket is downloaded, its skipped
paths accumulated, and its save requests drained by the save stage. -/
def processBucket (remote : Remote) (now : Int) (prod : Product)
    (st : RunState) (dirt : Path × Int) : Except Unit RunState :=
  match path_is_complete st.fs dirt.1 prod now with
  | Except.error er => Except.error er
  | Except.ok (true, fs1) =>
    Except.ok { st with fs := fs1, result := accumulate fs1 st.result dirt.1 }
  | Except.ok (false, fs1) =>
    let dl := downloadBucket remote fs1 now dirt.1 dirt.2
    let afterSkips := dl.skips.foldl (fun r p => accumulate fs1 r p) st.result
    let saved := saveFold fs1 afterSkips dl.saveReqs
    Except.ok { fs := saved.1, result := saved.2,
                listingCalls := st.listingCalls ++ [dirt.2],
                fetchCalls := st.fetchCalls ++ dl.fetchNames.map (fun n => (dirt.2, n)) }

/-- Sequential model of `Archive::retrieve_paths` (`archive.rs` lines 31-73):
validate the range, then walk hour buckets from the newest (`end`) to the
oldest in steps of one hour, dispatching each bucket as in `processBucket`.
Probe failures surface as a call-level error, as do validation failures; the
remote, save and accumulator stages contain their own failures. -/
def retrieve_paths (root : Path) (sat : Satellite) (prod : Product)
    (remote : Remote) (now : Int) (fs : Fs) (start e : Int) :
    Except String RunState :=
  match validate_dates sat prod start e with
  | Except.error msg => Except.error msg
  | Except.ok se =>
    match (visitTimes se.1 se.2).foldlM
        (fun st t => processBucket remote now prod st (build_path root sat prod t, t))
        { fs := fs, result := [], listingCalls := [], fetchCalls := [] } with
    | Except.error _ => Except.error "io error"
    | Except.ok st => Except.ok st

/-- Whether a run returned successfully with the given path present on disk. -/
def runFsHas (r : Except String RunState) (p : Path) : Bool :=
  match r with
  | Except.ok st => st.fs.pathExists p
  | Except.error _ => false

/-- Whether a run returned successfully with the given path in its result. -/
def runResultHas (r : Except String RunState) (p : Path) : Bool :=
  match r with
  | Except.ok st => decide (p ∈ st.result)
  | Except.error _ => false

/-- The verdict of a completeness probe, when it did not fail. -/
def probeVerdict (r : Except Unit (Bool × Fs)) : Option Bool :=
  match r with
  | Except.ok bfs => some bfs.1
  | Except.error _ => none

/-- Two filesystems carrying the same fault-injection sets (the io primitives
only rewrite `entries`, so the fault sets are invariant through a run). -/
def Fs.sameFails (a b : Fs) : Prop :=
  a.readDirFail = b.readDirFail ∧ a.createDirFail = b.createDirFail ∧
  a.createFail = b.createFail ∧ a.writeFail = b.writeFail

/-- Fault sets under which the completeness probe cannot fail: no
directory-creation faults, directory-read faults only on paths whose
completion marker already exists (the probe short-circuits on the marker
before its `read_dir`, so only the accumulator ever reads such a directory),
and no create or write fault on any completion-marker path.  Data files may
still carry create or write faults, and the remote may fail arbitrarily. -/
def probeSafe (fs : Fs) : Prop :=
  fs.createDirFail = [] ∧
  (∀ p ∈ fs.readDirFail, fs.pathExists (p ++ [HOUR_COMPLETE_FNAME]) = true) ∧
  (∀ p ∈ fs.createFail, p.getLast? ≠ some HOUR_COMPLETE_FNAME) ∧
  (∀ p ∈ fs.writeFail, p.getLast? ≠ some HOUR_COMPLETE_FNAME)

/-- A filesystem with no entries and no faults. -/
def emptyFs : Fs := ⟨[], [], [], [], []⟩

/-- A remote archive that lists one data file per hour and always serves it. -/
def okRemote : Remote :=
  { retrieve_remote_filenames := fun _ => Except.ok ["a.nc"],
    retrieve_remote_file := fun _ _ => Except.ok [1] }

/-- A remote archive whose listing and fetch operations always fail. -/
def failRemote : Remote :=
  { retrieve_remote_filenames := fun _ => Except.error (),
    retrieve_remote_file := fun _ _ => Except.error () }

/-- A sample in-range hour: 2023-06-01T12:00:00. -/
def sampleT : Int := ymdhms 2023 6 1 12 0 0

/-- The bucket directory of `sampleT` for GOES16 FDCC under an empty root. -/
def sampleDir : Path := build_path [] Satellite.GOES16 Product.FDCC sampleT

/-- A filesystem on which the `sampleT` bucket exists and carries its
completion marker. -/
def completeFs : Fs :=
  ⟨[(sampleDir, Node.dirN), (sampleDir ++ [HOUR_COMPLETE_FNAME], Node.fileN [])],
   [], [], [], []⟩

/-- A filesystem on which the `sampleT` bucket directory exists without a
marker and carries a directory-read fault: the completeness probe fails on it,
and nothing else is faulty. -/
def probeFailFs : Fs := ⟨[(sampleDir, Node.dirN)], [sampleDir], [], [], []⟩

/-- A filesystem whose only fault is a write fault on the data file `a.nc`. -/
def writeFaultFs : Fs := ⟨[], [], [], [], [["a.nc"]]⟩

/-- A filesystem whose only fault is a create fault on a data file, so saves of
that file fail while the completeness probe stays safe. -/
def saveFaultFs : Fs := ⟨[], [], [], [["bad.nc"]], []⟩

/-- A filesystem where the `sampleT` bucket exists with its marker but its
directory carries a read fault: the probe short-circuits on the marker, so the
fault is hit only by the accumulator when it lists the bucket. -/
def accumFaultFs : Fs :=
  ⟨[(sampleDir, Node.dirN), (sampleDir ++ [HOUR_COMPLETE_FNAME], Node.fileN [])],
   [sampleDir], [], [], []⟩

/-- A bucket directory populated with six subdirectories whose names end in
`.nc` — and no regular files at all. -/
def dirCountFs : Fs :=
  ⟨[(["r"], Node.dirN),
    (["r", "x1.nc"], Node.dirN), (["r", "x2.nc"], Node.dirN),
    (["r", "x3.nc"], Node.dirN), (["r", "x4.nc"], Node.dirN),
    (["r", "x5.nc"], Node.dirN), (["r", "x6.nc"], Node.dirN)],
   [], [], [], []⟩

/-- The run state reached by a run over the already-complete `sampleT` bucket:
the filesystem untouched, no remote calls, and an empty result (the only entry
under the bucket is the marker, which the accumulator filters out). -/
def completeSt : RunState := ⟨completeFs, [], [], []⟩

/-- Existence of a path is existence of an entry for it. -/
theorem Fs.pathExists_iff (fs : Fs) (q : Path) :
    fs.pathExists q = true ↔ ∃ en ∈ fs.entries, en.1 = q := by
  unfold Fs.pathExists Fs.find
  cases hf : fs.entries.find? (fun en => decide (en.1 = q)) with
  | none =>
    simp only [Option.map_none', Option.isSome_none]
    constructor
    · intro h
      cases h
    · rintro ⟨en, hmem, heq⟩
      have h2 := List.find?_eq_none.mp hf en hmem
      simp [heq] at h2
  | some en =>
    simp only [Option.map_some', Option.isSome_some]
    constructor
    · intro _
      have h1 := List.find?_some hf
      have h2 := List.mem_of_find?_eq_some hf
      exact ⟨en, h2, by simpa using h1⟩
    · intro _
      trivial

/-- `setEntry` keeps the fault sets. -/
theorem Fs.setEntry_fails (fs : Fs) (p : Path) (n : Node) : (fs.setEntry p n).sameFails fs :=
  ⟨rfl, rfl, rfl, rfl⟩

/-- `sameFails` is reflexive. -/
theorem Fs.sameFails_refl (fs : Fs) : fs.sameFails fs := ⟨rfl, rfl, rfl, rfl⟩

/-- `sameFails` is transitive. -/
theorem Fs.sameFails_trans {a b c : Fs} (h1 : a.sameFails b) (h2 : b.sameFails c) :
    a.sameFails c := by
  obtain ⟨x1, x2, x3, x4⟩ := h1
  obtain ⟨y1, y2, y3, y4⟩ := h2
  exact ⟨x1.trans y1, x2.trans y2, x3.trans y3, x4.trans y4⟩

/-- `setEntry` never removes a path. -/
theorem Fs.setEntry_mono (fs : Fs) (p : Path) (n : Node) (q : Path)
    (h : fs.pathExists q = true) : (fs.setEntry p n).pathExists q = true := by
  rw [Fs.pathExists_iff] at h ⊢
  obtain ⟨en, hmem, heq⟩ := h
  by_cases hqp : q = p
  · exact ⟨(p, n), by simp [Fs.setEntry], hqp.symm⟩
  · refine ⟨en, ?_, heq⟩
    simp only [Fs.setEntry, List.mem_cons, List.mem_filter]
    exact Or.inr ⟨hmem, by simp [heq, hqp]⟩

/-- `setEntry` stores the node at its path. -/
theorem Fs.setEntry_find_self (fs : Fs) (p : Path) (n : Node) :
    (fs.setEntry p n).find p = some n := by
  unfold Fs.find Fs.setEntry
  rw [List.find?_cons_of_pos _ (by simp)]
  rfl

/-- A path just set exists. -/
theorem Fs.setEntry_pathExists_self (fs : Fs) (p : Path) (n : Node) :
    (fs.setEntry p n).pathExists p = true := by
  simp [Fs.pathExists, Fs.setEntry_find_self]

/-- The directory-creation fold never removes a path. -/
theorem dirsFold_mono (l : List Path) : ∀ (fs : Fs) (q : Path), fs.pathExists q = true →
    (l.foldl (fun acc r => if acc.pathExists r then acc else acc.setEntry r Node.dirN)
      fs).pathExists q = true := by
  induction l with
  | nil => exact fun fs q h => h
  | cons a as ih =>
    intro fs q h
    simp only [List.foldl_cons]
    by_cases hc : fs.pathExists a = true
    · rw [if_pos hc]
      exact ih fs q h
    · rw [if_neg hc]
      exact ih _ q (Fs.setEntry_mono _ _ _ _ h)

/-- The directory-creation fold keeps the fault sets. -/
theorem dirsFold_fails (l : List Path) : ∀ (fs : Fs),
    ((l.foldl (fun acc r => if acc.pathExists r then acc else acc.setEntry r Node.dirN)
      fs)).sameFails fs := by
  induction l with
  | nil => exact fun fs => Fs.sameFails_refl fs
  | cons a as ih =>
    intro fs
    simp only [List.foldl_cons]
    by_cases hc : fs.pathExists a = true
    · rw [if_pos hc]
      exact ih fs
    · rw [if_neg hc]
      exact Fs.sameFails_trans (ih _) (Fs.setEntry_fails fs a Node.dirN)

/-- A successful `create_dir_all` keeps every existing path and the fault
sets. -/
theorem create_dir_all_ok_shape {fs : Fs} {p : Path} {fs1 : Fs}
    (h : fs.create_dir_all p = Except.ok fs1) :
    (∀ q, fs.pathExists q = true → fs1.pathExists q = true) ∧ fs1.sameFails fs := by
  unfold Fs.create_dir_all at h
  split at h
  · exact absurd h (by simp)
  · injection h with h2
    subst h2
    exact ⟨fun q hq => dirsFold_mono _ _ _ hq, dirsFold_fails _ _⟩

/-- `create_dir_all` off the fault set succeeds. -/
theorem create_dir_all_not_fail {fs : Fs} {p : Path} (h : p ∉ fs.createDirFail) :
    fs.create_dir_all p = Except.ok ((nonemptyPrefixes p).foldl
      (fun acc q => if acc.pathExists q then acc else acc.setEntry q Node.dirN) fs) := by
  unfold Fs.create_dir_all
  rw [if_neg h]

/-- A successful `File::create` means the path was off the fault set and the
file was truncated into place. -/
theorem fileCreate_ok_shape {fs : Fs} {p : Path} {fs1 : Fs}
    (h : fs.fileCreate p = Except.ok fs1) :
    p ∉ fs.createFail ∧ fs1 = fs.setEntry p (Node.fileN []) := by
  unfold Fs.fileCreate at h
  split at h
  · exact absurd h (by simp)
  · rename_i hn
    injection h with h2
    exact ⟨hn, h2.symm⟩

/-- `File::create` off the fault set succeeds. -/
theorem fileCreate_not_fail {fs : Fs} {p : Path} (h : p ∉ fs.createFail) :
    fs.fileCreate p = Except.ok (fs.setEntry p (Node.fileN [])) := by
  unfold Fs.fileCreate
  rw [if_neg h]

/-- `File::create` on the fault set fails. -/
theorem fileCreate_fail {fs : Fs} {p : Path} (h : p ∈ fs.createFail) :
    fs.fileCreate p = Except.error () := by
  unfold Fs.fileCreate
  rw [if_pos h]

/-- A successful `write_all` means the path was off the fault set and the data
was stored. -/
theorem write_all_ok_shape {fs : Fs} {p : Path} {data : Bytes} {fs1 : Fs}
    (h : fs.write_all p data = Except.ok fs1) :
    p ∉ fs.writeFail ∧ fs1 = fs.setEntry p (Node.fileN data) := by
  unfold Fs.write_all at h
  split at h
  · exact absurd h (by simp)
  · rename_i hn
    injection h with h2
    exact ⟨hn, h2.symm⟩

/-- `write_all` off the fault set succeeds. -/
theorem write_all_not_fail {fs : Fs} {p : Path} {data : Bytes} (h : p ∉ fs.writeFail) :
    fs.write_all p data = Except.ok (fs.setEntry p (Node.fileN data)) := by
  unfold Fs.write_all
  rw [if_neg h]

/-- `write_all` on the fault set fails. -/
theorem write_all_fail {fs : Fs} {p : Path} {data : Bytes} (h : p ∈ fs.writeFail) :
    fs.write_all p data = Except.error () := by
  unfold Fs.write_all
  rw [if_pos h]

/-- `read_dir` off the fault set succeeds. -/
theorem readDir_not_fail {fs : Fs} {p : Path} (h : p ∉ fs.readDirFail) :
    fs.readDir p = Except.ok (fs.entries.filter
      (fun en => decide (en.1.dropLast = p) && decide (en.1 ≠ []))) := by
  unfold Fs.readDir
  rw [if_neg h]

/-- Monadic bind on `Except` applied to a success reduces. -/
theorem okBind {e a b : Type} (x : a) (f : a → Except e b) :
    (Except.ok x : Except e a) >>= f = f x := rfl

/-- `mark_dir_as_complete` with the marker path off both fault sets writes the
marker content. -/
theorem mark_not_fail {fs : Fs} {pth : Path} {now : Int}
    (hc : pth ++ [HOUR_COMPLETE_FNAME] ∉ fs.createFail)
    (hw : pth ++ [HOUR_COMPLETE_FNAME] ∉ fs.writeFail) :
    mark_dir_as_complete fs pth now = Except.ok
      ((fs.setEntry (pth ++ [HOUR_COMPLETE_FNAME]) (Node.fileN [])).setEntry
        (pth ++ [HOUR_COMPLETE_FNAME]) (Node.fileN (completeTimeBytes now))) := by
  unfold mark_dir_as_complete
  dsimp only
  rw [fileCreate_not_fail hc]
  exact write_all_not_fail hw

/-- A successful `mark_dir_as_complete` keeps every existing path and the fault
sets, and leaves the marker present. -/
theorem mark_ok_shape {fs : Fs} {pth : Path} {now : Int} {fs2 : Fs}
    (h : mark_dir_as_complete fs pth now = Except.ok fs2) :
    (∀ q, fs.pathExists q = true → fs2.pathExists q = true) ∧ fs2.sameFails fs ∧
    fs2.pathExists (pth ++ [HOUR_COMPLETE_FNAME]) = true := by
  unfold mark_dir_as_complete at h
  dsimp only at h
  cases hc : fs.fileCreate (pth ++ [HOUR_COMPLETE_FNAME]) with
  | error er =>
    rw [hc] at h
    exact Except.noConfusion h
  | ok fsa =>
    rw [hc] at h
    obtain ⟨hnc, rfl⟩ := fileCreate_ok_shape hc
    obtain ⟨hnw, rfl⟩ := write_all_ok_shape h
    refine ⟨fun q hq => Fs.setEntry_mono _ _ _ _ (Fs.setEntry_mono _ _ _ _ hq), ?_, ?_⟩
    · exact Fs.sameFails_trans (Fs.setEntry_fails _ _ _) (Fs.setEntry_fails _ _ _)
    · exact Fs.setEntry_pathExists_self _ _ _

/-- A bucket whose directory and marker both exist probes complete with no
filesystem effect. -/
theorem path_is_complete_marker {fs : Fs} {pth : Path} {prod : Product} {now : Int}
    (h1 : fs.pathExists pth = true)
    (h2 : fs.pathExists (pth ++ [HOUR_COMPLETE_FNAME]) = true) :
    path_is_complete fs pth prod now = Except.ok (true, fs) := by
  unfold path_is_complete
  dsimp only
  rw [h1, h2]
  simp

/-- A successful probe keeps every existing path and the fault sets. -/
theorem path_is_complete_ok_shape {fs : Fs} {pth : Path} {prod : Product} {now : Int}
    {b : Bool} {fs1 : Fs}
    (h : path_is_complete fs pth prod now = Except.ok (b, fs1)) :
    (∀ q, fs.pathExists q = true → fs1.pathExists q = true) ∧ fs1.sameFails fs := by
  unfold path_is_complete at h
  dsimp only at h
  by_cases h1 : fs.pathExists pth = true
  · rw [h1] at h
    simp only [Bool.not_true] at h
    rw [if_neg (by simp)] at h
    by_cases h2 : fs.pathExists (pth ++ [HOUR_COMPLETE_FNAME]) = true
    · rw [if_pos h2] at h
      injection h with h3
      injection h3 with h4 h5
      subst h5
      exact ⟨fun q hq => hq, Fs.sameFails_refl fs⟩
    · rw [if_neg h2] at h
      cases hr : fs.readDir pth with
      | error er =>
        rw [hr] at h
        exact Except.noConfusion h
      | ok entries =>
        rw [hr, okBind] at h
        by_cases h4 : prod.max_num_per_hour ≤
            (((entries.filterMap
                (fun en => (pathExt en.1).map (fun ext => decide (ext = "nc")))).filter
              (fun bb => bb)).length : Int)
        · rw [if_pos h4] at h
          cases hm : mark_dir_as_complete fs pth now with
          | error er =>
            rw [hm] at h
            exact Except.noConfusion h
          | ok fsm =>
            rw [hm] at h
            injection h with h5
            injection h5 with h6 h7
            subst h7
            obtain ⟨hmono, hsf, _⟩ := mark_ok_shape hm
            exact ⟨hmono, hsf⟩
        · rw [if_neg h4] at h
          injection h with h5
          injection h5 with h6 h7
          subst h7
          exact ⟨fun q hq => hq, Fs.sameFails_refl fs⟩
  · rw [Bool.not_eq_true] at h1
    rw [h1] at h
    rw [if_pos (by simp)] at h
    cases hc : fs.create_dir_all pth with
    | error er =>
      rw [hc] at h
      exact Except.noConfusion h
    | ok fsa =>
      rw [hc] at h
      injection h with h3
      injection h3 with h4 h5
      subst h5
      exact create_dir_all_ok_shape hc

/-- Under `probeSafe` fault sets the completeness probe cannot fail. -/
theorem path_is_complete_total (fs : Fs) (pth : Path) (prod : Product) (now : Int)
    (hs : probeSafe fs) :
    ∃ b fs1, path_is_complete fs pth prod now = Except.ok (b, fs1) := by
  obtain ⟨hcd, hrd, hcf, hwf⟩ := hs
  unfold path_is_complete
  dsimp only
  by_cases h1 : fs.pathExists pth = true
  · rw [h1]
    simp only [Bool.not_true]
    rw [if_neg (by simp)]
    by_cases h2 : fs.pathExists (pth ++ [HOUR_COMPLETE_FNAME]) = true
    · rw [if_pos h2]
      exact ⟨true, fs, rfl⟩
    · rw [if_neg h2]
      have hnr : pth ∉ fs.readDirFail := fun hin => h2 (hrd pth hin)
      rw [readDir_not_fail hnr, okBind]
      by_cases h4 : prod.max_num_per_hour ≤
          ((((fs.entries.filter (fun en => decide (en.1.dropLast = pth) &&
              decide (en.1 ≠ []))).filterMap
              (fun en => (pathExt en.1).map (fun ext => decide (ext = "nc")))).filter
            (fun bb => bb)).length : Int)
      · rw [if_pos h4]
        have hmc : pth ++ [HOUR_COMPLETE_FNAME] ∉ fs.createFail := fun hm =>
          hcf _ hm (List.getLast?_concat _)
        have hmw : pth ++ [HOUR_COMPLETE_FNAME] ∉ fs.writeFail := fun hm =>
          hwf _ hm (List.getLast?_concat _)
        rw [mark_not_fail hmc hmw]
        exact ⟨true, _, rfl⟩
      · rw [if_neg h4]
        exact ⟨false, fs, rfl⟩
  · rw [Bool.not_eq_true] at h1
    rw [h1]
    rw [if_pos (by simp)]
    rw [create_dir_all_not_fail (by simp [hcd])]
    exact ⟨false, _, rfl⟩

/-- A path stored as a file is not a directory. -/
theorem setEntry_isDir_file (fs : Fs) (p : Path) (d : Bytes) :
    (fs.setEntry p (Node.fileN d)).isDir p = false := by
  unfold Fs.isDir
  rw [Fs.setEntry_find_self]
  rfl

/-- The accumulator appends a non-directory input unfiltered. -/
theorem accumulate_nondir {fs : Fs} {res : List Path} {pth : Path}
    (h : fs.isDir pth = false) :
    accumulate fs res pth = res ++ [pth] := by
  unfold accumulate
  rw [h]
  simp

/-- A save request whose create fails leaves the state untouched. -/
theorem saveOne_create_fail {fs : Fs} {result : List Path} {p : Path} {data : Bytes}
    (hc : p ∈ fs.createFail) :
    saveOne fs result (p, data) = (fs, result) := by
  unfold saveOne
  rw [fileCreate_fail hc]

/-- A save request whose create succeeds puts the file on disk — with the
requested bytes, or truncated when the write fails — and always appends the
path to the accumulator output. -/
theorem saveOne_ok_char (fs : Fs) (result : List Path) (p : Path) (data : Bytes)
    (hc : p ∉ fs.createFail) :
    ∃ fs2, saveOne fs result (p, data) = (fs2, result ++ [p])
      ∧ (∀ q, fs.pathExists q = true → fs2.pathExists q = true)
      ∧ fs2.sameFails fs
      ∧ fs2.pathExists p = true
      ∧ fs2.find p = some (Node.fileN (if p ∈ fs.writeFail then [] else data)) := by
  unfold saveOne
  rw [fileCreate_not_fail hc]
  dsimp only
  by_cases hw : p ∈ fs.writeFail
  · rw [write_all_fail (show p ∈ (fs.setEntry p (Node.fileN [])).writeFail from hw)]
    dsimp only
    refine ⟨fs.setEntry p (Node.fileN []), ?_, ?_, ?_, ?_, ?_⟩
    · rw [accumulate_nondir (setEntry_isDir_file fs p [])]
    · exact fun q hq => Fs.setEntry_mono _ _ _ _ hq
    · exact Fs.setEntry_fails _ _ _
    · exact Fs.setEntry_pathExists_self _ _ _
    · rw [if_pos hw]
      exact Fs.setEntry_find_self _ _ _
  · rw [write_all_not_fail (show p ∉ (fs.setEntry p (Node.fileN [])).writeFail from hw)]
    dsimp only
    refine ⟨(fs.setEntry p (Node.fileN [])).setEntry p (Node.fileN data), ?_, ?_, ?_, ?_, ?_⟩
    · rw [accumulate_nondir (setEntry_isDir_file _ p data)]
    · exact fun q hq => Fs.setEntry_mono _ _ _ _ (Fs.setEntry_mono _ _ _ _ hq)
    · exact Fs.sameFails_trans (Fs.setEntry_fails _ _ _) (Fs.setEntry_fails _ _ _)
    · exact Fs.setEntry_pathExists_self _ _ _
    · rw [if_neg hw]
      exact Fs.setEntry_find_self _ _ _

/-- Every save request keeps existing paths and the fault sets. -/
theorem saveOne_shape_any (fs : Fs) (result : List Path) (req : Path × Bytes) :
    (∀ q, fs.pathExists q = true → (saveOne fs result req).1.pathExists q = true)
    ∧ (saveOne fs result req).1.sameFails fs := by
  obtain ⟨p, data⟩ := req
  by_cases hc : p ∈ fs.createFail
  · rw [saveOne_create_fail hc]
    exact ⟨fun q h => h, Fs.sameFails_refl fs⟩
  · obtain ⟨fs2, heq, hmono, hsf, _, _⟩ := saveOne_ok_char fs result p data hc
    rw [heq]
    exact ⟨hmono, hsf⟩

/-- The save stage keeps existing paths and the fault sets. -/
theorem saveFold_shape (reqs : List (Path × Bytes)) : ∀ (fs : Fs) (result : List Path),
    (∀ q, fs.pathExists q = true → (saveFold fs result reqs).1.pathExists q = true)
    ∧ (saveFold fs result reqs).1.sameFails fs := by
  induction reqs with
  | nil => exact fun fs result => ⟨fun q h => h, Fs.sameFails_refl fs⟩
  | cons r rs ih =>
    intro fs result
    have hstep : saveFold fs result (r :: rs) =
        saveFold (saveOne fs result r).1 (saveOne fs result r).2 rs := rfl
    rw [hstep]
    obtain ⟨m1, f1⟩ := saveOne_shape_any fs result r
    obtain ⟨m2, f2⟩ := ih (saveOne fs result r).1 (saveOne fs result r).2
    exact ⟨fun q hq => m2 q (m1 q hq), Fs.sameFails_trans f2 f1⟩

/-- `probeSafe` transfers along any operation that keeps the fault sets and
never removes a path. -/
theorem probeSafe_of_sameFails {a b : Fs} (h : a.sameFails b)
    (hmono : ∀ q, b.pathExists q = true → a.pathExists q = true)
    (hs : probeSafe b) : probeSafe a := by
  obtain ⟨a1, a2, a3, a4⟩ := h
  obtain ⟨b1, b2, b3, b4⟩ := hs
  refine ⟨a2.trans b1, ?_, ?_, ?_⟩
  · intro p hp
    exact hmono _ (b2 p (a1 ▸ hp))
  · intro p hp
    exact b3 p (a3 ▸ hp)
  · intro p hp
    exact b4 p (a4 ▸ hp)

/-- A bucket whose directory and marker exist is routed straight to the
accumulator: the state is unchanged apart from the accumulated listing. -/
theorem processBucket_complete (remote : Remote) (now : Int) (prod : Product)
    (st : RunState) (d : Path) (t : Int)
    (h1 : st.fs.pathExists d = true)
    (h2 : st.fs.pathExists (d ++ [HOUR_COMPLETE_FNAME]) = true) :
    processBucket remote now prod st (d, t) =
      Except.ok { st with result := accumulate st.fs st.result d } := by
  unfold processBucket
  rw [path_is_complete_marker h1 h2]

/-- Any successful bucket step keeps existing paths and the fault sets, and
extends the call logs only with calls timed at this bucket hour. -/
theorem processBucket_shape {remote : Remote} {now : Int} {prod : Product}
    {st : RunState} {d : Path} {t : Int} {st1 : RunState}
    (h : processBucket remote now prod st (d, t) = Except.ok st1) :
    (∀ q, st.fs.pathExists q = true → st1.fs.pathExists q = true)
    ∧ st1.fs.sameFails st.fs
    ∧ (st1.listingCalls = st.listingCalls ∨ st1.listingCalls = st.listingCalls ++ [t])
    ∧ (∀ c ∈ st1.fetchCalls, c ∈ st.fetchCalls ∨ c.1 = t) := by
  unfold processBucket at h
  cases hp : path_is_complete st.fs d prod now with
  | error er =>
    rw [hp] at h
    exact Except.noConfusion h
  | ok bfs =>
    obtain ⟨b, fs1⟩ := bfs
    rw [hp] at h
    obtain ⟨hmono, hsf⟩ := path_is_complete_ok_shape hp
    cases b with
    | true =>
      injection h with h2
      subst h2
      exact ⟨hmono, hsf, Or.inl rfl, fun c hc => Or.inl hc⟩
    | false =>
      injection h with h2
      subst h2
      dsimp only
      obtain ⟨m2, f2⟩ := saveFold_shape (downloadBucket remote fs1 now d t).saveReqs fs1
        ((downloadBucket remote fs1 now d t).skips.foldl
          (fun r p => accumulate fs1 r p) st.result)
      refine ⟨fun q hq => m2 q (hmono q hq), Fs.sameFails_trans f2 hsf, Or.inr rfl, ?_⟩
      intro c hc
      rw [List.mem_append] at hc
      cases hc with
      | inl hcl => exact Or.inl hcl
      | inr hcr =>
        obtain ⟨n, hn, rfl⟩ := List.mem_map.mp hcr
        exact Or.inr rfl

/-- Under `probeSafe` fault sets a bucket step cannot fail, and the fault sets
stay `probeSafe`. -/
theorem processBucket_total (remote : Remote) (now : Int) (prod : Product)
    (st : RunState) (d : Path) (t : Int) (hs : probeSafe st.fs) :
    ∃ st1, processBucket remote now prod st (d, t) = Except.ok st1 ∧ probeSafe st1.fs := by
  obtain ⟨b, fs1, hp⟩ := path_is_complete_total st.fs d prod now hs
  obtain ⟨hmono, hsf⟩ := path_is_complete_ok_shape hp
  have hs1 : probeSafe fs1 := probeSafe_of_sameFails hsf hmono hs
  cases b with
  | true =>
    refine ⟨{ st with fs := fs1, result := accumulate fs1 st.result d }, ?_, hs1⟩
    unfold processBucket
    rw [hp]
  | false =>
    refine
      ⟨{ fs := (saveFold fs1
                  ((downloadBucket remote fs1 now d t).skips.foldl
                    (fun r p => accumulate fs1 r p) st.result)
                  (downloadBucket remote fs1 now d t).saveReqs).1,
         result := (saveFold fs1
                  ((downloadBucket remote fs1 now d t).skips.foldl
                    (fun r p => accumulate fs1 r p) st.result)
                  (downloadBucket remote fs1 now d t).saveReqs).2,
         listingCalls := st.listingCalls ++ [t],
         fetchCalls := st.fetchCalls ++
                  (downloadBucket remote fs1 now d t).fetchNames.map (fun n => (t, n)) },
       ?_, ?_⟩
    · unfold processBucket
      rw [hp]
    · exact probeSafe_of_sameFails
        (saveFold_shape (downloadBucket remote fs1 now d t).saveReqs fs1
          ((downloadBucket remote fs1 now d t).skips.foldl
            (fun r p => accumulate fs1 r p) st.result)).2
        (saveFold_shape (downloadBucket remote fs1 now d t).saveReqs fs1
          ((downloadBucket remote fs1 now d t).skips.foldl
            (fun r p => accumulate fs1 r p) st.result)).1 hs1

/-- Over buckets that are all present and marked, the producer fold succeeds,
touches neither the filesystem nor the remote, and its result does not depend
on the remote or the clock. -/
theorem foldComplete (root : Path) (sat : Satellite) (prod : Product) (l : List Int) :
    ∀ (st : RunState),
      (∀ t ∈ l, st.fs.pathExists (build_path root sat prod t) = true ∧
        st.fs.pathExists (build_path root sat prod t ++ [HOUR_COMPLETE_FNAME]) = true) →
      ∃ res, ∀ (remote : Remote) (now : Int),
        l.foldlM (fun s t => processBucket remote now prod s (build_path root sat prod t, t))
          st = Except.ok { st with result := res } := by
  induction l with
  | nil =>
    intro st hl
    exact ⟨st.result, fun remote now => rfl⟩
  | cons a as ih =>
    intro st hl
    obtain ⟨h1, h2⟩ := hl a (List.mem_cons_self a as)
    obtain ⟨res, hres⟩ := ih
      { st with result := accumulate st.fs st.result (build_path root sat prod a) }
      (fun t ht => hl t (List.mem_cons_of_mem a ht))
    refine ⟨res, fun remote now => ?_⟩
    rw [List.foldlM_cons, processBucket_complete remote now prod st _ a h1 h2, okBind]
    exact hres remote now

/-- The producer fold preserves the presence of a marked bucket and never logs
a remote call against it. -/
theorem foldMarker (root : Path) (sat : Satellite) (prod : Product) (remote : Remote)
    (now : Int) (dir : Path) (l : List Int) :
    ∀ (st st1 : RunState),
      st.fs.pathExists dir = true →
      st.fs.pathExists (dir ++ [HOUR_COMPLETE_FNAME]) = true →
      (∀ u ∈ st.listingCalls, build_path root sat prod u ≠ dir) →
      (∀ c ∈ st.fetchCalls, build_path root sat prod c.1 ≠ dir) →
      l.foldlM (fun s t => processBucket remote now prod s (build_path root sat prod t, t))
        st = Except.ok st1 →
      st1.fs.pathExists dir = true ∧
      st1.fs.pathExists (dir ++ [HOUR_COMPLETE_FNAME]) = true ∧
      (∀ u ∈ st1.listingCalls, build_path root sat prod u ≠ dir) ∧
      (∀ c ∈ st1.fetchCalls, build_path root sat prod c.1 ≠ dir) := by
  induction l with
  | nil =>
    intro st st1 a1 a2 a3 a4 h
    rw [List.foldlM_nil] at h
    injection h with h2
    subst h2
    exact ⟨a1, a2, a3, a4⟩
  | cons a as ih =>
    intro st st1 a1 a2 a3 a4 h
    rw [List.foldlM_cons] at h
    by_cases hd : build_path root sat prod a = dir
    · rw [hd, processBucket_complete remote now prod st dir a a1 a2, okBind] at h
      exact ih { st with result := accumulate st.fs st.result dir } st1 a1 a2 a3 a4 h
    · cases hstep : processBucket remote now prod st (build_path root sat prod a, a) with
      | error er =>
        rw [hstep] at h
        exact Except.noConfusion h
      | ok stm =>
        rw [hstep, okBind] at h
        obtain ⟨hmono, hsf, hlist, hfetch⟩ := processBucket_shape hstep
        refine ih stm st1 (hmono dir a1) (hmono _ a2) ?_ ?_ h
        · intro u hu
          cases hlist with
          | inl he =>
            rw [he] at hu
            exact a3 u hu
          | inr he =>
            rw [he, List.mem_append] at hu
            cases hu with
            | inl h5 => exact a3 u h5
            | inr h5 =>
              simp at h5
              subst h5
              exact hd
        · intro c hc
          cases hfetch c hc with
          | inl h5 => exact a4 c h5
          | inr h5 =>
            rw [h5]
            exact hd

/-- Under `probeSafe` fault sets the producer fold cannot fail. -/
theorem foldTotal (root : Path) (sat : Satellite) (prod : Product) (remote : Remote)
    (now : Int) (l : List Int) :
    ∀ st : RunState, probeSafe st.fs →
      ∃ st1, l.foldlM
        (fun s t => processBucket remote now prod s (build_path root sat prod t, t))
        st = Except.ok st1 := by
  induction l with
  | nil => exact fun st _ => ⟨st, rfl⟩
  | cons a as ih =>
    intro st hs
    obtain ⟨stm, hstep, hsm⟩ := processBucket_total remote now prod st _ a hs
    obtain ⟨st1, hrest⟩ := ih stm hsm
    refine ⟨st1, ?_⟩
    rw [List.foldlM_cons, hstep, okBind]
    exact hrest

/-- The loop body stops immediately below `start`, whatever the fuel. -/
theorem visitTimesGo_stop (start : Int) (fuel : Nat) (e : Int) (h : e < start) :
    visitTimesGo start fuel e = [] := by
  cases fuel with
  | zero => rfl
  | succ f =>
    unfold visitTimesGo
    rw [if_pos h]

/-- The loop result does not depend on the fuel once the fuel suffices. -/
theorem visitTimesGo_fuel (start : Int) : ∀ (f1 f2 : Nat) (e : Int),
    (e + 3600 - start).toNat ≤ f1 → (e + 3600 - start).toNat ≤ f2 →
    visitTimesGo start f1 e = visitTimesGo start f2 e := by
  intro f1
  induction f1 with
  | zero =>
    intro f2 e h1 h2
    have hlt : e < start := by omega
    rw [visitTimesGo_stop start 0 e hlt, visitTimesGo_stop start f2 e hlt]
  | succ f1 ih =>
    intro f2 e h1 h2
    by_cases hlt : e < start
    · rw [visitTimesGo_stop start _ e hlt, visitTimesGo_stop start f2 e hlt]
    · cases f2 with
      | zero => omega
      | succ f2 =>
        unfold visitTimesGo
        rw [if_neg hlt, if_neg hlt]
        congr 1
        exact ih f2 (e - 3600) (by omega) (by omega)

/-- First loop equation: below `start` the loop emits nothing. -/
theorem visitTimes_nil {start e : Int} (h : e < start) : visitTimes start e = [] := by
  unfold visitTimes
  exact visitTimesGo_stop start _ e h

/-- Second loop equation: at or after `start` the loop emits `e` and recurses
one hour earlier. -/
theorem visitTimes_cons {start e : Int} (h : ¬ e < start) :
    visitTimes start e = e :: visitTimes start (e - 3600) := by
  unfold visitTimes
  obtain ⟨m, hm⟩ : ∃ m : Nat, (e + 3600 - start).toNat = m + 1 :=
    ⟨(e + 3599 - start).toNat, by omega⟩
  rw [hm]
  show (if e < start then [] else e :: visitTimesGo start m (e - 3600)) =
    e :: visitTimesGo start ((e - 3600) + 3600 - start).toNat (e - 3600)
  rw [if_neg h]
  congr 1
  exact visitTimesGo_fuel start m ((e - 3600) + 3600 - start).toNat (e - 3600)
    (by omega) (by omega)

/-- Closed form of the producer loop: exactly the times `e - i * 3600` for
`i = 0 .. (e - start) / 3600`. -/
theorem visitTimes_eq (start : Int) : ∀ (n : Nat) (e : Int), start ≤ e →
    ((e - start) / 3600).toNat = n →
    visitTimes start e = (List.range (n + 1)).map (fun i : Nat => e - (i : Int) * 3600) := by
  intro n
  induction n with
  | zero =>
    intro e he hn
    rw [visitTimes_cons (not_lt.mpr he), visitTimes_nil (show e - 3600 < start by omega)]
    rw [show List.range 1 = [0] from rfl]
    norm_num
  | succ n ih =>
    intro e he hn
    have he2 : start ≤ e - 3600 := by omega
    have hn2 : ((e - 3600 - start) / 3600).toNat = n := by omega
    rw [visitTimes_cons (not_lt.mpr he), ih (e - 3600) he2 hn2]
    nth_rewrite 2 [List.range_succ_eq_map]
    rw [List.map_cons, List.map_map]
    congr 1
    · norm_num
    · refine List.map_congr_left ?_
      intro i hi
      simp only [Function.comp_apply]
      push_cast
      ring

/-- Stepping back a whole number of hours steps the hour bucket back by the
same number. -/
theorem hourFloor_sub_hours (t i : Int) : hourFloor (t - i * 3600) = hourFloor t - i := by
  unfold hourFloor
  omega

/-- The file count of the probe equals a plain count of the entries whose
extension is the data suffix — of entries of any kind, directories included. -/
theorem count_nc_eq (entries : List (Path × Node)) :
    ((entries.filterMap (fun en => (pathExt en.1).map (fun ext => decide (ext = "nc")))).filter
      (fun b => b)).length
    = entries.countP (fun en => decide (pathExt en.1 = some "nc")) := by
  induction entries with
  | nil => rfl
  | cons a as ih =>
    rw [List.filterMap_cons, List.countP_cons]
    cases hpe : pathExt a.1 with
    | none => simp [hpe, ih]
    | some ext =>
      by_cases he : ext = "nc"
      · subst he
        simp [hpe, ih]
      · simp [hpe, he, ih]

/-- Whenever the remote listing succeeds, the download worker ends its save
requests with the completion-marker request. -/
theorem downloadBucket_saveReqs_last (remote : Remote) (fs : Fs) (now : Int) (dir : Path)
    (t : Int) (names : List String)
    (hlist : remote.retrieve_remote_filenames t = Except.ok names) :
    ∃ reqs, (downloadBucket remote fs now dir t).saveReqs =
      reqs ++ [(dir ++ [HOUR_COMPLETE_FNAME], completeTimeBytes now)] := by
  unfold downloadBucket
  rw [hlist]
  exact ⟨_, rfl⟩

/-- The save stage over concatenated request lists processes them in order. -/
theorem saveFold_append (fs : Fs) (result : List Path) (l1 l2 : List (Path × Bytes)) :
    saveFold fs result (l1 ++ l2) =
      saveFold (saveFold fs result l1).1 (saveFold fs result l1).2 l2 := by
  unfold saveFold
  rw [List.foldl_append]

/-- C7: `validate_dates` fails with the invalid-range error exactly when the
end precedes the start or precedes the start clamped up to
`earliest_operational_date`; otherwise it returns the clamped start together
with the unchanged end, and those are the only successful results. -/
theorem validate_dates_spec (sat : Satellite) (prod : Product) (start e : Int) :
    (validate_dates sat prod start e =
      Except.ok ((if start < sat.earliest_operational_date prod
        then sat.earliest_operational_date prod else start), e)
      ↔ start ≤ e ∧
        (if start < sat.earliest_operational_date prod
          then sat.earliest_operational_date prod else start) ≤ e)
    ∧ (validate_dates sat prod start e = Except.error "Invalid satellite dates."
      ↔ e < start ∨ e < (if start < sat.earliest_operational_date prod
          then sat.earliest_operational_date prod else start))
    ∧ (∀ r, validate_dates sat prod start e = Except.ok r →
        r = ((if start < sat.earliest_operational_date prod
          then sat.earliest_operational_date prod else start), e)) := by
  unfold validate_dates
  dsimp only
  by_cases h1 : e < start
  · rw [if_pos h1]
    refine ⟨?_, ?_, ?_⟩
    · exact iff_of_false (by simp) (fun hse => absurd h1 (not_lt.mpr hse.1))
    · exact iff_of_true rfl (Or.inl h1)
    · intro r hr
      exact absurd hr (by simp)
  · rw [if_neg h1]
    by_cases h2 : e < (if start < sat.earliest_operational_date prod
        then sat.earliest_operational_date prod else start)
    · rw [if_pos h2]
      refine ⟨?_, ?_, ?_⟩
      · exact iff_of_false (by simp) (fun hse => absurd h2 (not_lt.mpr hse.2))
      · exact iff_of_true rfl (Or.inr h2)
      · intro r hr
        exact absurd hr (by simp)
    · rw [if_neg h2]
      refine ⟨?_, ?_, ?_⟩
      · exact iff_of_true rfl ⟨not_lt.mp h1, not_lt.mp h2⟩
      · exact iff_of_false (by simp) (fun hse => hse.elim h1 h2)
      · intro r hr
        injection hr with h3
        exact h3.symm

/-- Witness for C7: a range after the GOES16 FDCC epoch validates to itself. -/
theorem validate_dates_spec_witness :
    validate_dates Satellite.GOES16 Product.FDCC (ymdhms 2020 1 1 0 0 0)
      (ymdhms 2020 1 2 0 0 0) =
      Except.ok (ymdhms 2020 1 1 0 0 0, ymdhms 2020 1 2 0 0 0) := by
  have h := (validate_dates_spec Satellite.GOES16 Product.FDCC (ymdhms 2020 1 1 0 0 0)
    (ymdhms 2020 1 2 0 0 0)).1.mpr ⟨by decide, by decide⟩
  rw [if_neg (by decide)] at h
  exact h

/-- C10: validation never adjusts the end of the range: every successful
`validate_dates` returns the requested end unchanged. -/
theorem validate_dates_frame_end (sat : Satellite) (prod : Product) (start e : Int)
    (r : Int × Int) (h : validate_dates sat prod start e = Except.ok r) : r.2 = e := by
  unfold validate_dates at h
  dsimp only at h
  by_cases h1 : e < start
  · rw [if_pos h1] at h
    exact Except.noConfusion h
  · rw [if_neg h1] at h
    by_cases h2 : e < (if start < sat.earliest_operational_date prod
        then sat.earliest_operational_date prod else start)
    · rw [if_pos h2] at h
      exact Except.noConfusion h
    · rw [if_neg h2] at h
      injection h with h3
      rw [← h3]

/-- Witness for C10 at a concrete in-epoch range. -/
theorem validate_dates_frame_end_witness :
    validate_dates Satellite.GOES16 Product.FDCC (ymdhms 2021 1 1 0 0 0)
      (ymdhms 2021 1 3 0 0 0) =
      Except.ok (ymdhms 2021 1 1 0 0 0, ymdhms 2021 1 3 0 0 0)
    ∧ ((ymdhms 2021 1 1 0 0 0, ymdhms 2021 1 3 0 0 0) : Int × Int).2 =
      ymdhms 2021 1 3 0 0 0 :=
  ⟨by decide, validate_dates_frame_end Satellite.GOES16 Product.FDCC
    (ymdhms 2021 1 1 0 0 0) (ymdhms 2021 1 3 0 0 0)
    (ymdhms 2021 1 1 0 0 0, ymdhms 2021 1 3 0 0 0) (by decide)⟩

/-- C8 (amended): full characterization of the completeness probe.  An absent
directory is created and reported incomplete; an existing marker means
complete with no effect; otherwise the probe counts the entries whose
extension is `nc` — entries of any kind, directories included, unlike the
claimed directories-excluded filter — and when the count reaches
`max_num_per_hour` it writes the marker and reports complete, else reports
incomplete; probe-level io failures propagate. -/
theorem path_is_complete_spec (fs : Fs) (pth : Path) (prod : Product) (now : Int) :
    path_is_complete fs pth prod now =
      if fs.pathExists pth = false then
        Except.map (fun fs1 => (false, fs1)) (fs.create_dir_all pth)
      else if fs.pathExists (pth ++ [HOUR_COMPLETE_FNAME]) = true then
        Except.ok (true, fs)
      else
        (do
          let entries ← fs.readDir pth
          if prod.max_num_per_hour ≤
              (entries.countP (fun en => decide (pathExt en.1 = some "nc")) : Int) then
            Except.map (fun fs1 => (true, fs1)) (mark_dir_as_complete fs pth now)
          else Except.ok (false, fs)) := by
  unfold path_is_complete
  dsimp only
  by_cases h1 : fs.pathExists pth = true
  · rw [h1]
    simp only [Bool.not_true]
    rw [if_neg (show ¬(false = true) by simp), if_neg (show ¬(true = false) by simp)]
    by_cases h2 : fs.pathExists (pth ++ [HOUR_COMPLETE_FNAME]) = true
    · rw [if_pos h2, if_pos h2]
    · rw [if_neg h2, if_neg h2]
      cases hr : fs.readDir pth with
      | error er => rfl
      | ok entries =>
        simp only [okBind]
        rw [count_nc_eq entries]
        by_cases h4 : prod.max_num_per_hour ≤
            (entries.countP (fun en => decide (pathExt en.1 = some "nc")) : Int)
        · rw [if_pos h4, if_pos h4]
          cases hm : mark_dir_as_complete fs pth now with
          | error er => rfl
          | ok fsm => rfl
        · rw [if_neg h4, if_neg h4]
  · rw [Bool.not_eq_true] at h1
    rw [h1]
    simp only [Bool.not_false, if_true]
    cases hc : fs.create_dir_all pth with
    | error er => rfl
    | ok fsa => rfl

/-- Counterexample for C8 as stated: a bucket holding six subdirectories named
`*.nc` and no regular file at all probes Complete for a product expecting six
files per hour — the count does not exclude directories. -/
theorem probe_counts_directories_cex :
    probeVerdict (path_is_complete dirCountFs ["r"] Product.FDCF 0) = some true
    ∧ (∀ en ∈ dirCountFs.entries, en.2.isDirN = true) := by decide

/-- C9 (amended): the save stage skips a request whose create fails, leaving
the filesystem and the result untouched; but when the create succeeds the file
exists on disk afterwards — truncated to empty when the write fails — and the
path is forwarded to the accumulator and appears in the result in either
case. -/
theorem saveOne_spec (fs : Fs) (result : List Path) (p : Path) (data : Bytes) :
    (p ∈ fs.createFail → saveOne fs result (p, data) = (fs, result))
    ∧ (p ∉ fs.createFail →
        (saveOne fs result (p, data)).2 = result ++ [p]
        ∧ (saveOne fs result (p, data)).1.pathExists p = true
        ∧ (saveOne fs result (p, data)).1.sameFails fs
        ∧ (p ∉ fs.writeFail →
            (saveOne fs result (p, data)).1.find p = some (Node.fileN data))
        ∧ (p ∈ fs.writeFail →
            (saveOne fs result (p, data)).1.find p = some (Node.fileN []))) := by
  constructor
  · exact fun hc => saveOne_create_fail hc
  · intro hc
    obtain ⟨fs2, heq, hmono, hsf, hex, hfind⟩ := saveOne_ok_char fs result p data hc
    rw [heq]
    refine ⟨rfl, hex, hsf, ?_, ?_⟩
    · intro hw
      rw [hfind, if_neg hw]
    · intro hw
      rw [hfind, if_pos hw]

/-- Witness for C9 at a fault-free save. -/
theorem saveOne_spec_witness :
    (saveOne emptyFs [] (["x.nc"], [1])).2 = [["x.nc"]]
    ∧ (saveOne emptyFs [] (["x.nc"], [1])).1.pathExists ["x.nc"] = true :=
  ⟨((saveOne_spec emptyFs [] ["x.nc"] [1]).2 (by decide)).1,
   ((saveOne_spec emptyFs [] ["x.nc"] [1]).2 (by decide)).2.1⟩

/-- Counterexample for C9 as stated: a request whose write fails (create
succeeded) leaves the file present on disk and its path in the forwarded
result, contradicting the claim that a failed save leaves the file absent and
out of the result. -/
theorem save_write_failure_cex :
    ["a.nc"] ∈ (saveOne writeFaultFs [] (["a.nc"], [1, 2])).2
    ∧ (saveOne writeFaultFs [] (["a.nc"], [1, 2])).1.pathExists ["a.nc"] = true
    ∧ ["a.nc"] ∈ writeFaultFs.writeFail
    ∧ ["a.nc"] ∉ writeFaultFs.createFail := by decide

/-- C1 (amended): the download worker has no staleness gating.  Whenever the
remote listing of a bucket succeeds, the worker ends its save requests with
the completion-marker request — for every wall-clock `now` and bucket hour
`t`, with no 24-hour comparison between them. -/
theorem marker_request_not_staleness_gated (remote : Remote) (fs : Fs) (now : Int)
    (dir : Path) (t : Int) (names : List String)
    (hlist : remote.retrieve_remote_filenames t = Except.ok names) :
    (downloadBucket remote fs now dir t).saveReqs.getLast? =
      some (dir ++ [HOUR_COMPLETE_FNAME], completeTimeBytes now) := by
  obtain ⟨reqs, hreqs⟩ := downloadBucket_saveReqs_last remote fs now dir t names hlist
  rw [hreqs]
  exact List.getLast?_concat _

/-- Witness for C1 (amended) at a concrete worker invocation. -/
theorem marker_request_not_staleness_gated_witness :
    (downloadBucket okRemote emptyFs 5 ["d"] 7).saveReqs.getLast? =
      some (["d"] ++ [HOUR_COMPLETE_FNAME], completeTimeBytes 5) :=
  marker_request_not_staleness_gated okRemote emptyFs 5 ["d"] 7 ["a.nc"] (by decide)

/-- Counterexample for C1 as stated: a full run over a bucket whose hour is
one hour before wall-clock now — well within 24 hours — still writes the
completion marker for that bucket. -/
theorem staleness_gate_cex :
    runFsHas (retrieve_paths [] Satellite.GOES16 Product.FDCC okRemote (sampleT + 3600)
        emptyFs sampleT sampleT)
      (sampleDir ++ [HOUR_COMPLETE_FNAME]) = true
    ∧ (sampleT + 3600) - sampleT < 24 * 3600 := by decide

/-- C4 (amended): the producer loop visits exactly the times `end - i hours`
down to the last one at or after `start`, newest to oldest; their hour buckets
are consecutive descending hours, each visited exactly once; the oldest
visited bucket is the hour of `start` or the hour just above it, so the hour
bucket containing `start` itself can be skipped. -/
theorem producer_loop_spec (start e : Int) (h : start ≤ e) :
    visitTimes start e =
      (List.range (((e - start) / 3600).toNat + 1)).map (fun i : Nat => e - (i : Int) * 3600)
    ∧ (visitTimes start e).map hourFloor =
      (List.range (((e - start) / 3600).toNat + 1)).map
        (fun i : Nat => hourFloor e - (i : Int))
    ∧ ((visitTimes start e).map hourFloor).Nodup
    ∧ hourFloor start ≤ hourFloor e - (e - start) / 3600
    ∧ hourFloor e - (e - start) / 3600 ≤ hourFloor start + 1 := by
  have h1 := visitTimes_eq start (((e - start) / 3600).toNat) e h rfl
  have h2 : (visitTimes start e).map hourFloor =
      (List.range (((e - start) / 3600).toNat + 1)).map
        (fun i : Nat => hourFloor e - (i : Int)) := by
    rw [h1, List.map_map]
    refine List.map_congr_left ?_
    intro i hi
    simp only [Function.comp_apply]
    exact hourFloor_sub_hours e i
  refine ⟨h1, h2, ?_, ?_, ?_⟩
  · rw [h2]
    refine List.Nodup.map ?_ (List.nodup_range _)
    intro i j hij
    have h5 : hourFloor e - (i : Int) = hourFloor e - (j : Int) := hij
    omega
  · unfold hourFloor
    omega
  · unfold hourFloor
    omega

/-- Witness for C4 (amended) on a concrete range. -/
theorem producer_loop_spec_witness :
    ((visitTimes 2700 9000).map hourFloor).Nodup ∧ (2700 : Int) ≤ 9000 :=
  ⟨(producer_loop_spec 2700 9000 (by decide)).2.2.1, by decide⟩

/-- Counterexample for C4 as stated: for the validated range
2020-06-01T08:45 .. 2020-06-01T10:30, the bucket of the calendar hour 08 —
which intersects the range, since it contains the start — is never visited:
the loop steps 10:30, 09:30 and stops. -/
theorem producer_skips_start_hour_cex :
    validate_dates Satellite.GOES16 Product.FDCC (ymdhms 2020 6 1 8 45 0)
      (ymdhms 2020 6 1 10 30 0) =
      Except.ok (ymdhms 2020 6 1 8 45 0, ymdhms 2020 6 1 10 30 0)
    ∧ build_path [] Satellite.GOES16 Product.FDCC (ymdhms 2020 6 1 8 45 0) ∉
        (visitTimes (ymdhms 2020 6 1 8 45 0) (ymdhms 2020 6 1 10 30 0)).map
          (fun t => build_path [] Satellite.GOES16 Product.FDCC t) := by decide

/-- C3 (amended): besides range validation, completeness-probe io failures
also surface as a call-level error (the `?` at line 60); the contained
failures are exactly the remote, save-stage and accumulator ones.  Whenever
validation succeeds and the fault sets cannot fail a probe — in particular,
directory-read faults are allowed on every marker-complete bucket, where only
the accumulator reads — the call returns a result, for every remote (including
an always-failing one) and any create or write faults on data files. -/
theorem failures_contained (root : Path) (sat : Satellite) (prod : Product)
    (remote : Remote) (now : Int) (fs : Fs) (start e : Int) (vr : Int × Int)
    (hval : validate_dates sat prod start e = Except.ok vr)
    (hsafe : probeSafe fs) :
    ∃ st, retrieve_paths root sat prod remote now fs start e = Except.ok st := by
  obtain ⟨st1, hfold⟩ := foldTotal root sat prod remote now (visitTimes vr.1 vr.2)
    ⟨fs, [], [], []⟩ hsafe
  refine ⟨st1, ?_⟩
  unfold retrieve_paths
  rw [hval]
  dsimp only
  rw [hfold]

/-- Witness for C3 (amended), applied twice: once on a bucket whose directory
carries a read fault hit only by the accumulator (the bucket is
marker-complete, so the probe never reads it), and once with an always-failing
remote plus a create fault on a data file.  Both calls still return a
result. -/
theorem failures_contained_witness :
    (∃ st, retrieve_paths [] Satellite.GOES16 Product.FDCC failRemote 0 accumFaultFs
      sampleT sampleT = Except.ok st)
    ∧ sampleDir ∈ accumFaultFs.readDirFail
    ∧ (∃ st, retrieve_paths [] Satellite.GOES16 Product.FDCC failRemote 0 saveFaultFs
      sampleT sampleT = Except.ok st) :=
  ⟨failures_contained [] Satellite.GOES16 Product.FDCC failRemote 0 accumFaultFs
      sampleT sampleT (sampleT, sampleT) (by decide) (by unfold probeSafe; decide),
   by decide,
   failures_contained [] Satellite.GOES16 Product.FDCC failRemote 0 saveFaultFs
      sampleT sampleT (sampleT, sampleT) (by decide) (by unfold probeSafe; decide)⟩

/-- Counterexample for C3 as stated: a directory-read failure during the
completeness probe — the only fault injected — escalates to a call-level
error instead of being contained. -/
theorem probe_error_escalates_cex :
    retrieve_paths [] Satellite.GOES16 Product.FDCC okRemote 0 probeFailFs sampleT sampleT
      = Except.error "io error"
    ∧ probeFailFs.readDirFail = [sampleDir]
    ∧ probeFailFs.createDirFail = [] ∧ probeFailFs.createFail = []
    ∧ probeFailFs.writeFail = [] := by decide

/-- C5: completeness is monotonic.  For a bucket whose directory and marker
exist: the probe reports complete without touching the filesystem; after any
successful run the marker still exists (no operation deletes it); and the run
performs no remote listing and no remote fetch against that bucket, whether or
not its data files exist. -/
theorem marker_monotone (root : Path) (sat : Satellite) (prod : Product)
    (remote : Remote) (now wclock : Int) (fs : Fs) (start e t : Int) (st : RunState)
    (hdir : fs.pathExists (build_path root sat prod t) = true)
    (hmark : fs.pathExists (build_path root sat prod t ++ [HOUR_COMPLETE_FNAME]) = true)
    (hrun : retrieve_paths root sat prod remote now fs start e = Except.ok st) :
    path_is_complete fs (build_path root sat prod t) prod wclock = Except.ok (true, fs)
    ∧ st.fs.pathExists (build_path root sat prod t ++ [HOUR_COMPLETE_FNAME]) = true
    ∧ (∀ u ∈ st.listingCalls, build_path root sat prod u ≠ build_path root sat prod t)
    ∧ (∀ c ∈ st.fetchCalls, build_path root sat prod c.1 ≠ build_path root sat prod t) := by
  refine ⟨path_is_complete_marker hdir hmark, ?_⟩
  unfold retrieve_paths at hrun
  cases hv : validate_dates sat prod start e with
  | error m =>
    rw [hv] at hrun
    exact Except.noConfusion hrun
  | ok se =>
    rw [hv] at hrun
    dsimp only at hrun
    cases hf : (visitTimes se.1 se.2).foldlM
        (fun s u => processBucket remote now prod s (build_path root sat prod u, u))
        { fs := fs, result := [], listingCalls := [], fetchCalls := [] } with
    | error er =>
      rw [hf] at hrun
      exact Except.noConfusion hrun
    | ok st2 =>
      rw [hf] at hrun
      injection hrun with h2
      subst h2
      obtain ⟨b1, b2, b3, b4⟩ := foldMarker root sat prod remote now
        (build_path root sat prod t) (visitTimes se.1 se.2) ⟨fs, [], [], []⟩ st2
        hdir hmark (fun u hu => absurd hu (List.not_mem_nil u))
        (fun c hc => absurd hc (List.not_mem_nil c)) hf
      exact ⟨b2, b3, b4⟩

/-- Witness for C5 at a concrete marked bucket and a run over it. -/
theorem marker_monotone_witness :
    path_is_complete completeFs (build_path [] Satellite.GOES16 Product.FDCC sampleT)
      Product.FDCC 0 = Except.ok (true, completeFs)
    ∧ completeSt.fs.pathExists
        (build_path [] Satellite.GOES16 Product.FDCC sampleT ++ [HOUR_COMPLETE_FNAME]) = true
    ∧ (∀ u ∈ completeSt.listingCalls,
        build_path [] Satellite.GOES16 Product.FDCC u ≠
          build_path [] Satellite.GOES16 Product.FDCC sampleT)
    ∧ (∀ c ∈ completeSt.fetchCalls,
        build_path [] Satellite.GOES16 Product.FDCC c.1 ≠
          build_path [] Satellite.GOES16 Product.FDCC sampleT) :=
  marker_monotone [] Satellite.GOES16 Product.FDCC failRemote 0 0 completeFs
    sampleT sampleT sampleT completeSt (by decide) (by decide) (by decide)

/-- C6: idempotence over an already-complete range.  If validation succeeds
and every visited bucket exists with its marker, the call succeeds, leaves the
filesystem untouched, performs zero remote listings and zero remote fetches,
and a second call — with any remote and any clock — returns the same run state
and hence the same path sequence. -/
theorem retrieve_idempotent_complete (root : Path) (sat : Satellite) (prod : Product)
    (remote remote2 : Remote) (now now2 : Int) (fs : Fs) (start e vs ve : Int)
    (hval : validate_dates sat prod start e = Except.ok (vs, ve))
    (hcomp : ∀ t ∈ visitTimes vs ve,
      fs.pathExists (build_path root sat prod t) = true ∧
      fs.pathExists (build_path root sat prod t ++ [HOUR_COMPLETE_FNAME]) = true) :
    ∃ st, retrieve_paths root sat prod remote now fs start e = Except.ok st
      ∧ st.fs = fs ∧ st.listingCalls = [] ∧ st.fetchCalls = []
      ∧ retrieve_paths root sat prod remote2 now2 st.fs start e = Except.ok st := by
  obtain ⟨res, hres⟩ := foldComplete root sat prod (visitTimes vs ve) ⟨fs, [], [], []⟩ hcomp
  refine ⟨⟨fs, res, [], []⟩, ?_, rfl, rfl, rfl, ?_⟩
  · unfold retrieve_paths
    rw [hval]
    dsimp only
    rw [hres remote now]
  · unfold retrieve_paths
    rw [hval]
    dsimp only
    rw [hres remote2 now2]

/-- Witness for C6 at a concrete marked bucket: the second call uses a
different remote and clock and still returns the same state. -/
theorem retrieve_idempotent_complete_witness :
    ∃ st, retrieve_paths [] Satellite.GOES16 Product.FDCC okRemote 0 completeFs
        sampleT sampleT = Except.ok st
      ∧ st.fs = completeFs ∧ st.listingCalls = [] ∧ st.fetchCalls = []
      ∧ retrieve_paths [] Satellite.GOES16 Product.FDCC failRemote 99 st.fs
        sampleT sampleT = Except.ok st :=
  retrieve_idempotent_complete [] Satellite.GOES16 Product.FDCC okRemote failRemote 0 99
    completeFs sampleT sampleT sampleT sampleT (by decide) (by decide)

/-- C2 (amended): paths forwarded from the save stage are appended to the
result unfiltered — in particular, for every bucket that probes incomplete and
whose remote listing succeeds, the completion-marker path itself is saved and
ends up in the returned result, so the result is not only data files. -/
theorem downloaded_bucket_marker_in_result (remote : Remote) (now : Int) (prod : Product)
    (st : RunState) (d : Path) (t : Int) (names : List String) (fs1 : Fs)
    (hprobe : path_is_complete st.fs d prod now = Except.ok (false, fs1))
    (hlist : remote.retrieve_remote_filenames t = Except.ok names)
    (hmk : d ++ [HOUR_COMPLETE_FNAME] ∉ st.fs.createFail) :
    ∃ st1, processBucket remote now prod st (d, t) = Except.ok st1
      ∧ d ++ [HOUR_COMPLETE_FNAME] ∈ st1.result := by
  obtain ⟨reqs, hreqs⟩ := downloadBucket_saveReqs_last remote fs1 now d t names hlist
  have hsf1 := (path_is_complete_ok_shape hprobe).2
  refine
    ⟨{ fs := (saveFold fs1
                ((downloadBucket remote fs1 now d t).skips.foldl
                  (fun r p => accumulate fs1 r p) st.result)
                (downloadBucket remote fs1 now d t).saveReqs).1,
       result := (saveFold fs1
                ((downloadBucket remote fs1 now d t).skips.foldl
                  (fun r p => accumulate fs1 r p) st.result)
                (downloadBucket remote fs1 now d t).saveReqs).2,
       listingCalls := st.listingCalls ++ [t],
       fetchCalls := st.fetchCalls ++
                (downloadBucket remote fs1 now d t).fetchNames.map (fun n => (t, n)) },
     ?_, ?_⟩
  · unfold processBucket
    rw [hprobe]
  · dsimp only
    rw [hreqs, saveFold_append]
    have hsfA := (saveFold_shape reqs fs1
      ((downloadBucket remote fs1 now d t).skips.foldl
        (fun r p => accumulate fs1 r p) st.result)).2
    have hmkA : d ++ [HOUR_COMPLETE_FNAME] ∉
        (saveFold fs1 ((downloadBucket remote fs1 now d t).skips.foldl
          (fun r p => accumulate fs1 r p) st.result) reqs).1.createFail := by
      rw [hsfA.2.2.1, hsf1.2.2.1]
      exact hmk
    obtain ⟨fs2, heq, _, _, _, _⟩ := saveOne_ok_char
      (saveFold fs1 ((downloadBucket remote fs1 now d t).skips.foldl
        (fun r p => accumulate fs1 r p) st.result) reqs).1
      (saveFold fs1 ((downloadBucket remote fs1 now d t).skips.foldl
        (fun r p => accumulate fs1 r p) st.result) reqs).2
      (d ++ [HOUR_COMPLETE_FNAME]) (completeTimeBytes now) hmkA
    have hone : saveFold
        (saveFold fs1 ((downloadBucket remote fs1 now d t).skips.foldl
          (fun r p => accumulate fs1 r p) st.result) reqs).1
        (saveFold fs1 ((downloadBucket remote fs1 now d t).skips.foldl
          (fun r p => accumulate fs1 r p) st.result) reqs).2
        [(d ++ [HOUR_COMPLETE_FNAME], completeTimeBytes now)] =
      saveOne
        (saveFold fs1 ((downloadBucket remote fs1 now d t).skips.foldl
          (fun r p => accumulate fs1 r p) st.result) reqs).1
        (saveFold fs1 ((downloadBucket remote fs1 now d t).skips.foldl
          (fun r p => accumulate fs1 r p) st.result) reqs).2
        (d ++ [HOUR_COMPLETE_FNAME], completeTimeBytes now) := rfl
    rw [hone, heq]
    exact List.mem_append_right _ (List.mem_singleton.mpr rfl)

/-- Witness for C2 (amended) at a concrete empty bucket. -/
theorem downloaded_bucket_marker_in_result_witness :
    ∃ st1, processBucket okRemote 5 Product.FDCF ⟨emptyFs, [], [], []⟩ (["d"], 7)
        = Except.ok st1
      ∧ ["d"] ++ [HOUR_COMPLETE_FNAME] ∈ st1.result :=
  downloaded_bucket_marker_in_result okRemote 5 Product.FDCF ⟨emptyFs, [], [], []⟩ ["d"] 7
    ["a.nc"] ⟨[(["d"], Node.dirN)], [], [], [], []⟩ (by decide) (by decide) (by decide)

/-- Counterexample for C2 as stated: a full run over a downloaded bucket
returns a result containing the completion-marker path, whose extension is
`txt`, not the data-file extension. -/
theorem marker_in_result_cex :
    runResultHas (retrieve_paths [] Satellite.GOES16 Product.FDCC okRemote (sampleT + 3600)
        emptyFs sampleT sampleT)
      (sampleDir ++ [HOUR_COMPLETE_FNAME]) = true
    ∧ pathExt (sampleDir ++ [HOUR_COMPLETE_FNAME]) = some "txt" := by decide

end GoesArch
